import Mathlib

/-!
A verification development for the front-end semantic core of the Souffle
Datalog compiler: the type environment and subtype lattice (TypeSystem.cpp),
the type environment builder (AstTypeEnvironmentAnalysis.cpp), the supertype
constraint of clause type inference (AstTypeAnalysis.cpp), and the component
instantiation pass (ComponentInstantiationTransformer.cpp).

The C++ data structures are embedded shallowly:
type objects become registry entries addressed by qualified name (the source
stores direct references; the registry indirection is the standard arena
modelling of that object graph), `std::map` registries become association
lists, and recursive visitors become fuel-indexed structural recursions.
Fuel parameters only bound the recursion depth; every traversal that
terminates in the source does so within the canonical fuel supplied by the
wrappers, and the one traversal that can diverge in the source (the union
collector of getGreatestCommonSubtypes) is given an Option-valued embedding
whose result is none for every fuel amount exactly when the source recursion
never returns.
-/

/-- Qualified names: dotted sequences of identifiers.  Concatenation of
qualified names (used for instance mangling) is list append. -/
abbrev QName := List String

/-- Rendering of a qualified name, used in diagnostic messages. -/
def qnameStr (n : QName) : String := String.intercalate "." n

/-- A registry entry of the type environment, one constructor per concrete
subclass of `Type` in TypeSystem.h/TypeSystem.cpp: the internal
`PredefinedType`, `PrimitiveType` (with its base type reference),
`UnionType` (element type references), `RecordType` (named fields) and
`SumType` (named branches).  References between types are by qualified
name through the environment. -/
inductive TypeDef where
  | predefined : TypeDef
  | primitive : QName → TypeDef
  | union : List QName → TypeDef
  | record : List (String × QName) → TypeDef
  | sum : List (String × QName) → TypeDef
deriving DecidableEq

/-- The type environment: the `types` map of `TypeEnvironment`, as an
association list from qualified name to definition, in registration order. -/
abbrev TypeEnv := List (QName × TypeDef)

/-- Lookup in the type environment (`TypeEnvironment::getType` /
`isType`). -/
def envLookup : TypeEnv → QName → Option TypeDef
  | [], _ => none
  | (m, d) :: rest, n => if m = n then some d else envLookup rest n

/-- Name of the predefined number root type. -/
def qnum : QName := ["number"]

/-- Name of the predefined float root type. -/
def qflt : QName := ["float"]

/-- Name of the predefined symbol root type. -/
def qsym : QName := ["symbol"]

/-- Name of the predefined unsigned root type. -/
def quns : QName := ["unsigned"]

/-- The freshly initialised type environment: `TypeEnvironment::clear`
creates the four predefined root types, in this order. -/
def envInit : TypeEnv :=
  [(qnum, TypeDef.predefined), (qflt, TypeDef.predefined),
   (qsym, TypeDef.predefined), (quns, TypeDef.predefined)]

/-- Modelled from the spec: `TypeSet` (TypeSystem.h is not part of the
sources) is a first-class value set of types with a distinguished universal
state; the finite state is represented as a duplicate-free list of type
names. -/
inductive TypeSet where
  | all : TypeSet
  | fin : List QName → TypeSet
deriving DecidableEq

/-- Insertion into the finite-list representation, keeping it
duplicate-free. -/
def tsInsertName (n : QName) (l : List QName) : List QName :=
  if n ∈ l then l else l ++ [n]

/-- `TypeSet::insert` for a single type: a no-op on the universal set. -/
def TypeSet.insert : TypeSet → QName → TypeSet
  | TypeSet.all, _ => TypeSet.all
  | TypeSet.fin l, n => TypeSet.fin (tsInsertName n l)

/-- `TypeSet::insert` for a whole set. -/
def TypeSet.insertSet : TypeSet → TypeSet → TypeSet
  | TypeSet.all, _ => TypeSet.all
  | TypeSet.fin _, TypeSet.all => TypeSet.all
  | TypeSet.fin l, TypeSet.fin m => TypeSet.fin (m.foldl (fun acc n => tsInsertName n acc) l)

/-- `TypeEnvironment::getAllTypes`: the set of all registered type names. -/
def getAllTypes (env : TypeEnv) : TypeSet :=
  TypeSet.fin (env.foldl (fun l p => tsInsertName p.1 l) [])

/-- Cache lookup of the `seen` map of `VisitOnceTypeVisitor`. -/
def seenLookup : List (QName × Bool) → QName → Option Bool
  | [], _ => none
  | (m, v) :: rest, n => if m = n then some v else seenLookup rest n

/-- Update of the `seen` map of `VisitOnceTypeVisitor` (overwrites the
pre-marked entry of the node being visited). -/
def seenSet : List (QName × Bool) → QName → Bool → List (QName × Bool)
  | [], n, v => [(n, v)]
  | (m, w) :: rest, n, v =>
    if m = n then (m, v) :: rest else (m, w) :: seenSet rest n v

/-- The visitor of `isOfRootType` (TypeSystem.cpp lines 221-245): a
`VisitOnceTypeVisitor<bool>` whose `seen` map pre-marks a node with `false`
before descending, so that cyclic references yield `false`.  A predefined
type is of the root iff it is the root; a primitive type is of the root if
it is the root, its base is the root, or a fresh `isOfRootType` call on the
base succeeds; a union is of the root iff it is non-empty and all its
elements are (with `all_of` short-circuiting); everything else is not.  The
fuel bounds the recursion depth only. -/
def iorGo (env : TypeEnv) (root : QName) :
    Nat → List (QName × Bool) → QName → Bool × List (QName × Bool)
  | 0, seen, _ => (false, seen)
  | fuel + 1, seen, t =>
    match seenLookup seen t with
    | some v => (v, seen)
    | none =>
      let s1 := (t, false) :: seen
      match envLookup env t with
      | some TypeDef.predefined =>
        let r := decide (t = root)
        (r, seenSet s1 t r)
      | some (TypeDef.primitive base) =>
        let r := decide (t = root) || decide (base = root) ||
          (iorGo env root fuel [] base).1
        (r, seenSet s1 t r)
      | some (TypeDef.union elems) =>
        if elems.isEmpty then (false, seenSet s1 t false)
        else
          let p := elems.foldl
            (fun acc e => if acc.1 then iorGo env root fuel acc.2 e else acc)
            (true, s1)
          (p.1, seenSet p.2 t p.1)
      | some (TypeDef.record _) => (false, seenSet s1 t false)
      | some (TypeDef.sum _) => (false, seenSet s1 t false)
      | none => (false, seenSet s1 t false)

/-- Canonical fuel for `iorGo`: ample for every traversal the source
performs on an environment of this size. -/
def iorFuel (env : TypeEnv) : Nat := 2 * env.length + 2

/-- `isOfRootType(type, root)`: whether `type` is a sub-type of the given
root type (TypeSystem.cpp lines 221-245). -/
def isOfRootType (env : TypeEnv) (t root : QName) : Bool :=
  (iorGo env root (iorFuel env) [] t).1

/-- `isNumberType` (TypeSystem.cpp line 349). -/
def isNumberType (env : TypeEnv) (t : QName) : Bool := isOfRootType env t qnum

/-- `isSymbolType` (TypeSystem.cpp line 365). -/
def isSymbolType (env : TypeEnv) (t : QName) : Bool := isOfRootType env t qsym

/-- `isFloatType` (TypeSystem.cpp line 341). -/
def isFloatType (env : TypeEnv) (t : QName) : Bool := isOfRootType env t qflt

/-- `isUnsignedType` (TypeSystem.cpp line 357). -/
def isUnsignedType (env : TypeEnv) (t : QName) : Bool :=
  isOfRootType env t quns

/-- The visitor of `isSubType(a, b-union)` (TypeSystem.cpp lines 251-269):
membership of `a` in the transitive closure of union `b`, again a
`VisitOnceTypeVisitor<bool>` with the target test performed before the
cache; only unions are descended into (`any_of` short-circuiting). -/
def istGo (env : TypeEnv) (trg : QName) :
    Nat → List (QName × Bool) → QName → Bool × List (QName × Bool)
  | 0, seen, _ => (false, seen)
  | fuel + 1, seen, t =>
    if t = trg then (true, seen)
    else
      match seenLookup seen t with
      | some v => (v, seen)
      | none =>
        let s1 := (t, false) :: seen
        match envLookup env t with
        | some (TypeDef.union elems) =>
          let p := elems.foldl
            (fun acc e => if acc.1 then acc else istGo env trg fuel acc.2 e)
            (false, s1)
          (p.1, seenSet p.2 t p.1)
        | _ => (false, seenSet s1 t false)

/-- `isSubType(a, b)` for a union type `b` (TypeSystem.cpp lines
251-269). -/
def isSubTypeU (env : TypeEnv) (a b : QName) : Bool :=
  (istGo env a (env.length + 2) [] b).1

/-- The recursion of `isSubtypeOf` (TypeSystem.cpp lines 423-455).  After
the reflexivity test, a target equal to the predefined number (resp.
symbol) type is decided by `isNumberType` (resp. `isSymbolType`) alone;
otherwise a primitive source chases its base chain, and a union target is
decided by `isSubType`.  There is no corresponding case for the unsigned
and float roots.  Fuel bounds the base-chain recursion only; a chain in any
environment built through the registration interface is shorter than the
environment, so the canonical fuel of the wrapper is never exhausted. -/
def isSubtypeOfGo (env : TypeEnv) : Nat → QName → QName → Bool
  | 0, _, _ => false
  | fuel + 1, a, b =>
    if a = b then true
    else if b = qnum then isNumberType env a
    else if b = qsym then isSymbolType env a
    else
      (match envLookup env a with
        | some (TypeDef.primitive base) => isSubtypeOfGo env fuel base b
        | _ => false) ||
      (match envLookup env b with
        | some (TypeDef.union _) => isSubTypeU env a b
        | _ => false)

/-- `isSubtypeOf(a, b)` (TypeSystem.cpp lines 423-455). -/
def isSubtypeOf (env : TypeEnv) (a b : QName) : Bool :=
  isSubtypeOfGo env (env.length + 2) a b

/-- Whether a name denotes a union type (`isUnion`, TypeSystem.cpp line
247). -/
def isUnionTD (env : TypeEnv) (t : QName) : Bool :=
  match envLookup env t with
  | some (TypeDef.union _) => true
  | _ => false

/-- The collector of `getGreatestCommonSubtypes` (TypeSystem.cpp lines
584-603): a plain `TypeVisitor<void>` (no visited set) that inserts every
reachable type that is a subtype of `b` and otherwise descends into union
elements.  Because the source recursion carries no visited set it does not
terminate on cyclic unions; correspondingly this embedding returns `none`
when the fuel runs out, and returns `none` for every fuel amount exactly on
the inputs where the source diverges. -/
def gcsGo (env : TypeEnv) (b : QName) :
    Nat → TypeSet → QName → Option TypeSet
  | 0, _, _ => none
  | fuel + 1, res, t =>
    if isSubtypeOf env t b then some (res.insert t)
    else
      match envLookup env t with
      | some (TypeDef.union elems) =>
        elems.foldl
          (fun acc e =>
            match acc with
            | none => none
            | some r => gcsGo env b fuel r e)
          (some res)
      | _ => some res

/-- `getGreatestCommonSubtypes(a, b)` (TypeSystem.cpp lines 562-608).  The
result is `none` when the union-collector recursion of the source does not
return. -/
def getGreatestCommonSubtypes (env : TypeEnv) (a b : QName) :
    Option TypeSet :=
  if a = b then some (TypeSet.fin [a])
  else if isSubtypeOf env a b then some (TypeSet.fin [a])
  else if isSubtypeOf env b a then some (TypeSet.fin [b])
  else if isUnionTD env a && isUnionTD env b then
    gcsGo env b (env.length + 2) (TypeSet.fin []) a
  else some (TypeSet.fin [])

/-- `getLeastCommonSupertypes(a, b)` (TypeSystem.cpp lines 468-504):
equality and direct subtype tests first, otherwise all registered common
supertypes filtered to the minimal ones. -/
def getLeastCommonSupertypes (env : TypeEnv) (a b : QName) : TypeSet :=
  if a = b then TypeSet.fin [a]
  else if isSubtypeOf env a b then TypeSet.fin [b]
  else if isSubtypeOf env b a then TypeSet.fin [a]
  else
    let allNames :=
      match getAllTypes env with
      | TypeSet.all => []
      | TypeSet.fin l => l
    let superTypes := allNames.foldl
      (fun acc cur =>
        if isSubtypeOf env a cur && isSubtypeOf env b cur then
          tsInsertName cur acc
        else acc) []
    let res := superTypes.foldl
      (fun acc cur =>
        if superTypes.any (fun t => decide (t ≠ cur) && isSubtypeOf env t cur)
        then acc
        else tsInsertName cur acc) []
    TypeSet.fin res

/-- The `update` operation of the supertype constraint `isSupertypeOf`
(AstTypeAnalysis.cpp lines 149-192), on the state (repeat flag, assignment
of the constrained variable).  Returns the new assignment, the new repeat
flag and the changed result.  The repeat flag is cleared on the first call;
with the flag clear the operation returns `false` without touching the
assignment. -/
def isSupertypeOfUpdate (env : TypeEnv) (b : QName) :
    Bool → TypeSet → TypeSet × Bool × Bool
  | false, s => (s, false, false)
  | true, s =>
    match s with
    | TypeSet.all => (TypeSet.fin [b], false, true)
    | TypeSet.fin l =>
      let res := l.foldl
        (fun acc t => acc.insertSet (getLeastCommonSupertypes env t b))
        (TypeSet.fin [])
      if res = TypeSet.fin l then (TypeSet.fin l, false, false)
      else (res, false, true)

/-- An AST type declaration (`AstType` subclasses consumed by
`TypeEnvironmentAnalysis::updateTypeEnvironment`): a primitive declaration
with its numeric flag, a union with its element type names, a record with
its named field types, or a sum with its named branch payload types. -/
inductive AstTypeDecl where
  | primitive : QName → Bool → AstTypeDecl
  | union : QName → List QName → AstTypeDecl
  | record : QName → List (String × QName) → AstTypeDecl
  | sum : QName → List (String × QName) → AstTypeDecl
deriving DecidableEq

/-- The qualified name of an AST type declaration. -/
def AstTypeDecl.name : AstTypeDecl → QName
  | AstTypeDecl.primitive n _ => n
  | AstTypeDecl.union n _ => n
  | AstTypeDecl.record n _ => n
  | AstTypeDecl.sum n _ => n

/-- Registration of a fresh type under a name, a no-op when the name is
already bound.  Modelled from the spec: the creation interface of
`TypeEnvironment` (TypeSystem.h is not part of the sources) creates an
empty type of the requested kind and returns the existing entry when the
name is already bound. -/
def createTypeIfAbsent (env : TypeEnv) (n : QName) (d : TypeDef) : TypeEnv :=
  match envLookup env n with
  | some _ => env
  | none => env ++ [(n, d)]

/-- `TypeEnvironment::createNumericType`: a user primitive based on the
number root. -/
def createNumericType (env : TypeEnv) (n : QName) : TypeEnv :=
  createTypeIfAbsent env n (TypeDef.primitive qnum)

/-- `TypeEnvironment::createSymbolType`: a user primitive based on the
symbol root. -/
def createSymbolType (env : TypeEnv) (n : QName) : TypeEnv :=
  createTypeIfAbsent env n (TypeDef.primitive qsym)

/-- `TypeEnvironment::createUnionType`: an initially empty union. -/
def createUnionType (env : TypeEnv) (n : QName) : TypeEnv :=
  createTypeIfAbsent env n (TypeDef.union [])

/-- `TypeEnvironment::createRecordType`: an initially empty record. -/
def createRecordType (env : TypeEnv) (n : QName) : TypeEnv :=
  createTypeIfAbsent env n (TypeDef.record [])

/-- `TypeEnvironment::createSumType`: an initially empty sum. -/
def createSumType (env : TypeEnv) (n : QName) : TypeEnv :=
  createTypeIfAbsent env n (TypeDef.sum [])

/-- One step of the first (symbol) pass of
`TypeEnvironmentAnalysis::updateTypeEnvironment`
(AstTypeEnvironmentAnalysis.cpp lines 46-72): skip names that are already
registered, otherwise create the entry of the declared kind. -/
def typeEnvSymbolStep (env : TypeEnv) (t : AstTypeDecl) : TypeEnv :=
  if (envLookup env t.name).isSome then env
  else
    match t with
    | AstTypeDecl.primitive n numeric =>
      if numeric then createNumericType env n else createSymbolType env n
    | AstTypeDecl.union n _ => createUnionType env n
    | AstTypeDecl.record n _ => createRecordType env n
    | AstTypeDecl.sum n _ => createSumType env n

/-- Replacement of the payload of the named registry entry
(`TypeEnvironment::getModifiableType` followed by mutation). -/
def updateEnvEntry : TypeEnv → QName → (TypeDef → TypeDef) → TypeEnv
  | [], _, _ => []
  | (m, d) :: rest, n, f =>
    if m = n then (m, f d) :: rest else (m, d) :: updateEnvEntry rest n f

/-- One step of the second (link) pass of
`TypeEnvironmentAnalysis::updateTypeEnvironment`
(AstTypeEnvironmentAnalysis.cpp lines 75-124): for a union, record or sum
declaration, append those referenced types that are registered to the entry
of the same kind (a kind mismatch is skipped, supporting faulty input);
primitive declarations need no linking. -/
def typeEnvLinkStep (env : TypeEnv) (t : AstTypeDecl) : TypeEnv :=
  match t with
  | AstTypeDecl.primitive _ _ => env
  | AstTypeDecl.union n elems =>
    updateEnvEntry env n (fun d =>
      match d with
      | TypeDef.union cur =>
        TypeDef.union (cur ++ elems.filter (fun e => (envLookup env e).isSome))
      | other => other)
  | AstTypeDecl.record n fields =>
    updateEnvEntry env n (fun d =>
      match d with
      | TypeDef.record cur =>
        TypeDef.record
          (cur ++ fields.filter (fun f => (envLookup env f.2).isSome))
      | other => other)
  | AstTypeDecl.sum n branches =>
    updateEnvEntry env n (fun d =>
      match d with
      | TypeDef.sum cur =>
        TypeDef.sum
          (cur ++ branches.filter (fun br => (envLookup env br.2).isSome))
      | other => other)

/-- `TypeEnvironmentAnalysis::updateTypeEnvironment`
(AstTypeEnvironmentAnalysis.cpp lines 42-125): the symbol pass over all AST
type declarations followed by the link pass. -/
def updateTypeEnvironment (env : TypeEnv) (ts : List AstTypeDecl) : TypeEnv :=
  ts.foldl typeEnvLinkStep (ts.foldl typeEnvSymbolStep env)

/-- The kind of a registry entry (its concrete C++ class). -/
inductive TypeKind where
  | predefined : TypeKind
  | primitive : TypeKind
  | union : TypeKind
  | record : TypeKind
  | sum : TypeKind
deriving DecidableEq

/-- Kind of a type definition. -/
def kindOf : TypeDef → TypeKind
  | TypeDef.predefined => TypeKind.predefined
  | TypeDef.primitive _ => TypeKind.primitive
  | TypeDef.union _ => TypeKind.union
  | TypeDef.record _ => TypeKind.record
  | TypeDef.sum _ => TypeKind.sum

/-- The names and kinds of a registry, in registration order. -/
def keysKinds (env : TypeEnv) : List (QName × TypeKind) :=
  env.map (fun p => (p.1, kindOf p.2))

/-- A primitive base chain in the registry: `chainOk env a cs b` states
that `a` is a user primitive whose base chain runs through `cs` and reaches
`b`. -/
def chainOk (env : TypeEnv) : QName → List QName → QName → Prop
  | a, [], b => envLookup env a = some (TypeDef.primitive b)
  | a, c :: cs, b =>
    envLookup env a = some (TypeDef.primitive c) ∧ chainOk env c cs b

instance chainOkDecidable (env : TypeEnv) :
    ∀ a cs b, Decidable (chainOk env a cs b)
  | _, [], _ => by unfold chainOk; infer_instance
  | a, c :: cs, b => by
    unfold chainOk
    have := chainOkDecidable env c cs b
    infer_instance

/-- A diagnostic of the error report; only the message text is modelled
(source locations and follow-up messages are rendering detail). -/
abbrev ErrReport := List String

/-- Message of the redefinition diagnostic for a type
(ComponentInstantiationTransformer.cpp line 61). -/
def redefTypeMsg (n : QName) : String :=
  "Redefinition of type " ++ qnameStr n

/-- Message of the redefinition diagnostic for a relation
(ComponentInstantiationTransformer.cpp line 76). -/
def redefRelMsg (n : QName) : String :=
  "Redefinition of relation " ++ qnameStr n

/-- Message of the redefinition diagnostic for an I/O directive
(ComponentInstantiationTransformer.cpp lines 93 and 112). -/
def redefDirMsg (n : QName) : String :=
  "Redefinition of IO directive " ++ qnameStr n

/-- Message of the instantiation depth error
(ComponentInstantiationTransformer.cpp line 305). -/
def depthMsg : String := "Component instantiation limit reached"

/-- An `AstLoad` directive: its target qualified name. -/
structure AstLoad where
  name : QName
deriving DecidableEq

/-- An `AstPrintSize` directive: its target qualified name. -/
structure AstPrintSize where
  name : QName
deriving DecidableEq

/-- An `AstStore` directive: its target qualified name. -/
structure AstStore where
  name : QName
deriving DecidableEq

/-- An `AstAttribute`: attribute name and type name. -/
structure AstAttribute where
  name : String
  typeName : QName
deriving DecidableEq

/-- An `AstClause`: the qualified name of its head atom and the relation
names of its body atoms; argument subtrees are not modelled (the
instantiation pass observed here renames relation and type references
only). -/
structure AstClause where
  head : QName
  bodyAtoms : List QName
deriving DecidableEq

/-- An `AstRelation`: qualified name, attributes and attached clauses. -/
structure AstRelation where
  name : QName
  attributes : List AstAttribute
  clauses : List AstClause
deriving DecidableEq

/-- An `AstComponentType`: component name plus type parameters
(formal for a declaration, actual for a base reference or an init). -/
structure AstComponentType where
  name : String
  typeParams : List QName
deriving DecidableEq

/-- An `AstComponentInit` (`.init name = C<args>`). -/
structure AstComponentInit where
  instanceName : QName
  componentType : AstComponentType
deriving DecidableEq

/-- An `AstComponent`: its type (name and formal parameters), base
components, overridden head names, local types, relations, clauses, I/O
directives and nested instantiations. -/
structure AstComponent where
  componentType : AstComponentType
  baseComponents : List AstComponentType
  overridden : List String
  types : List AstTypeDecl
  relations : List AstRelation
  clauses : List AstClause
  loads : List AstLoad
  printSizes : List AstPrintSize
  stores : List AstStore
  instantiations : List AstComponentInit
deriving DecidableEq

/-- A `TypeBinding`: the persistent formal-to-actual type parameter map of
the instantiation pass.  Modelled from the spec (the TypeBinding class
lives in a header that is not part of the sources): a persistent mapping,
extended rather than mutated, where `find` yields the empty qualified name
for unbound names. -/
abbrev TypeBinding := List (QName × QName)

/-- Lookup in an association list of qualified names. -/
def assocQ : List (QName × QName) → QName → Option QName
  | [], _ => none
  | (m, v) :: rest, n => if m = n then some v else assocQ rest n

/-- `TypeBinding::find`: the bound actual, or the empty name. -/
def bindingFind (b : TypeBinding) (n : QName) : QName :=
  match assocQ b n with
  | some v => v
  | none => []

/-- `TypeBinding::extend`: bind the formals to the actuals, the new
bindings taking precedence. -/
def bindingExtend (b : TypeBinding) (formals actuals : List QName) :
    TypeBinding :=
  List.zip formals actuals ++ b

/-- Modelled from the spec: `ComponentLookup::getComponent`
(ComponentLookupAnalysis.cpp is not part of the sources) resolves a
component name to its definition among the program components; a missing
name yields nothing.  The enclosing-component scope and the binding
argument of the source signature are not modelled. -/
def getComponent (comps : List AstComponent) (n : String) :
    Option AstComponent :=
  comps.find? (fun c => c.componentType.name = n)

/-- The accumulator of an instantiation (`ComponentContent`,
ComponentInstantiationTransformer.cpp lines 45-124). -/
structure ComponentContent where
  types : List AstTypeDecl
  relations : List AstRelation
  loads : List AstLoad
  printSizes : List AstPrintSize
  stores : List AstStore
deriving DecidableEq

/-- The empty accumulator. -/
def emptyContent : ComponentContent := ⟨[], [], [], [], []⟩

/-- `ComponentContent::add` for a type (lines 52-66): report a
redefinition error when the qualified name is already present, then append
the type regardless. -/
def ComponentContent.addType (c : ComponentContent) (t : AstTypeDecl)
    (report : ErrReport) : ComponentContent × ErrReport :=
  let report :=
    if c.types.any (fun e => decide (e.name = t.name)) then
      report ++ [redefTypeMsg t.name]
    else report
  ({ c with types := c.types ++ [t] }, report)

/-- `ComponentContent::add` for a relation (lines 68-82): report a
redefinition error on a duplicate qualified name, then append
regardless. -/
def ComponentContent.addRelation (c : ComponentContent) (r : AstRelation)
    (report : ErrReport) : ComponentContent × ErrReport :=
  let report :=
    if c.relations.any (fun e => decide (e.name = r.name)) then
      report ++ [redefRelMsg r.name]
    else report
  ({ c with relations := c.relations ++ [r] }, report)

/-- `ComponentContent::add` for a load directive (lines 84-100): report a
redefinition error on a duplicate target name, then append regardless. -/
def ComponentContent.addLoad (c : ComponentContent) (l : AstLoad)
    (report : ErrReport) : ComponentContent × ErrReport :=
  let report :=
    if c.loads.any (fun e => decide (e.name = l.name)) then
      report ++ [redefDirMsg l.name]
    else report
  ({ c with loads := c.loads ++ [l] }, report)

/-- `ComponentContent::add` for a printsize directive (lines 102-119):
report a redefinition error on a duplicate target name, then append
regardless. -/
def ComponentContent.addPrintSize (c : ComponentContent) (p : AstPrintSize)
    (report : ErrReport) : ComponentContent × ErrReport :=
  let report :=
    if c.printSizes.any (fun e => decide (e.name = p.name)) then
      report ++ [redefDirMsg p.name]
    else report
  ({ c with printSizes := c.printSizes ++ [p] }, report)

/-- `ComponentContent::add` for a store directive (lines 121-123): no
duplicate check and no diagnostic, just append. -/
def ComponentContent.addStore (c : ComponentContent) (s : AstStore)
    (report : ErrReport) : ComponentContent × ErrReport :=
  ({ c with stores := c.stores ++ [s] }, report)

/-- Merging one instantiated content into the accumulator: the add loops of
ComponentInstantiationTransformer.cpp lines 158-177 and 328-347. -/
def addContentAll (res : ComponentContent) (content : ComponentContent)
    (report : ErrReport) : ComponentContent × ErrReport :=
  let a := content.types.foldl
    (fun acc t => ComponentContent.addType acc.1 t acc.2) (res, report)
  let b := content.relations.foldl
    (fun acc r => ComponentContent.addRelation acc.1 r acc.2) a
  let c := content.loads.foldl
    (fun acc l => ComponentContent.addLoad acc.1 l acc.2) b
  let d := content.printSizes.foldl
    (fun acc p => ComponentContent.addPrintSize acc.1 p acc.2) c
  content.stores.foldl
    (fun acc s => ComponentContent.addStore acc.1 s acc.2) d

/-- Binding substitution on a component-local type declaration
(ComponentInstantiationTransformer.cpp lines 190-222): union members,
record field types and sum branch payload types bound in the binding are
replaced by their actuals. -/
def substTypeDecl (binding : TypeBinding) : AstTypeDecl → AstTypeDecl
  | AstTypeDecl.primitive n numeric => AstTypeDecl.primitive n numeric
  | AstTypeDecl.union n elems =>
    AstTypeDecl.union n (elems.map (fun e =>
      let nn := bindingFind binding e
      if nn.isEmpty then e else nn))
  | AstTypeDecl.record n fields =>
    AstTypeDecl.record n (fields.map (fun f =>
      let nn := bindingFind binding f.2
      if nn.isEmpty then f else (f.1, nn)))
  | AstTypeDecl.sum n branches =>
    AstTypeDecl.sum n (branches.map (fun br =>
      let nn := bindingFind binding br.2
      if nn.isEmpty then br else (br.1, nn)))

/-- Binding substitution on a component-local relation
(ComponentInstantiationTransformer.cpp lines 233-239): attribute type
names bound in the binding are replaced. -/
def substRelation (binding : TypeBinding) (r : AstRelation) : AstRelation :=
  { r with attributes := r.attributes.map (fun a =>
      let nn := bindingFind binding a.typeName
      if nn.isEmpty then a else { a with typeName := nn }) }

/-- Whether the accumulated relations contain the given qualified name. -/
def hasRel (rels : List AstRelation) (n : QName) : Bool :=
  rels.any (fun r => decide (r.name = n))

/-- Attaching a clause to the last accumulated relation of the given name
(the relation index of ComponentInstantiationTransformer.cpp lines 266-269
is overwritten left to right, so the last entry of a duplicated name
wins). -/
def attachToLast (rels : List AstRelation) (n : QName) (c : AstClause) :
    List AstRelation :=
  match rels with
  | [] => []
  | r :: rest =>
    if hasRel rest n then r :: attachToLast rest n c
    else if r.name = n then { r with clauses := r.clauses ++ [c] } :: rest
    else r :: attachToLast rest n c

/-- The local-clause loop of `collectContent`
(ComponentInstantiationTransformer.cpp lines 272-281): clauses whose head
leading qualifier is overridden are dropped, clauses whose head relation is
accumulated are attached, the rest become orphans. -/
def attachLocalClauses (overridden : List String) (res : ComponentContent)
    (orphans : List AstClause) (clauses : List AstClause) :
    ComponentContent × List AstClause :=
  clauses.foldl
    (fun acc c =>
      if overridden.any (fun s => decide (s = c.head.headD "")) then acc
      else if hasRel acc.1.relations c.head then
        ({ acc.1 with relations := attachToLast acc.1.relations c.head c },
         acc.2)
      else (acc.1, acc.2 ++ [c]))
    (res, orphans)

/-- The orphan-resolution loop of `collectContent`
(ComponentInstantiationTransformer.cpp lines 284-294): orphans whose head
relation became visible are attached and removed, the rest are kept. -/
def resolveOrphans (res : ComponentContent) (orphans : List AstClause) :
    ComponentContent × List AstClause :=
  orphans.foldl
    (fun acc c =>
      if hasRel acc.1.relations c.head then
        ({ acc.1 with relations := attachToLast acc.1.relations c.head c },
         acc.2)
      else (acc.1, acc.2 ++ [c]))
    (res, [])

/-- The local type loop of `collectContent` (lines 190-226). -/
def addLocalTypes (binding : TypeBinding) (res : ComponentContent)
    (report : ErrReport) (types : List AstTypeDecl) :
    ComponentContent × ErrReport :=
  types.foldl
    (fun acc t => ComponentContent.addType acc.1 (substTypeDecl binding t) acc.2)
    (res, report)

/-- The local relation loop of `collectContent` (lines 229-243). -/
def addLocalRelations (binding : TypeBinding) (res : ComponentContent)
    (report : ErrReport) (rels : List AstRelation) :
    ComponentContent × ErrReport :=
  rels.foldl
    (fun acc r => ComponentContent.addRelation acc.1 (substRelation binding r) acc.2)
    (res, report)

/-- The local I/O directive loops of `collectContent` (lines 246-263). -/
def addLocalDirectives (res : ComponentContent) (report : ErrReport)
    (loads : List AstLoad) (printSizes : List AstPrintSize)
    (stores : List AstStore) : ComponentContent × ErrReport :=
  let a := loads.foldl
    (fun acc l => ComponentContent.addLoad acc.1 l acc.2) (res, report)
  let b := printSizes.foldl
    (fun acc p => ComponentContent.addPrintSize acc.1 p acc.2) a
  stores.foldl (fun acc s => ComponentContent.addStore acc.1 s acc.2) b

/-- Renaming through a mangling map; unmapped names are unchanged. -/
def renameQ (m : List (QName × QName)) (n : QName) : QName :=
  match assocQ m n with
  | some v => v
  | none => n

/-- Map assignment (`mapping[old] = new`): replace the binding of the key
or append it. -/
def mapAssign : List (QName × QName) → QName → QName → List (QName × QName)
  | [], k, v => [(k, v)]
  | (m, w) :: rest, k, v =>
    if m = k then (m, v) :: rest else (m, w) :: mapAssign rest k v

/-- Renaming of a type declaration to a new qualified name
(`setQualifiedName`). -/
def AstTypeDecl.withName (d : AstTypeDecl) (n : QName) : AstTypeDecl :=
  match d with
  | AstTypeDecl.primitive _ numeric => AstTypeDecl.primitive n numeric
  | AstTypeDecl.union _ elems => AstTypeDecl.union n elems
  | AstTypeDecl.record _ fields => AstTypeDecl.record n fields
  | AstTypeDecl.sum _ branches => AstTypeDecl.sum n branches

/-- The type mangling loop of `getInstantiatedContent` (lines 356-361):
prefix every accumulated type name with the instance name, building the
forward mapping. -/
def mangleTypes (inst : QName) (ts : List AstTypeDecl) :
    List (QName × QName) × List AstTypeDecl :=
  ts.foldl
    (fun acc t =>
      let nn := inst ++ t.name
      (mapAssign acc.1 t.name nn, acc.2 ++ [t.withName nn]))
    ([], [])

/-- The relation mangling loop of `getInstantiatedContent` (lines
364-369). -/
def mangleRels (inst : QName) (rs : List AstRelation) :
    List (QName × QName) × List AstRelation :=
  rs.foldl
    (fun acc r =>
      let nn := inst ++ r.name
      (mapAssign acc.1 r.name nn, acc.2 ++ [{ r with name := nn }]))
    ([], [])

/-- `fixNames` on a clause (lines 382-387): atom relation names (the head
atom included) are renamed through the relation mapping. -/
def fixClause (rm : List (QName × QName)) (c : AstClause) : AstClause :=
  { head := renameQ rm c.head, bodyAtoms := c.bodyAtoms.map (renameQ rm) }

/-- `fixNames` on a relation (lines 374-387): attribute type names are
renamed through the type mapping and the atoms of its clauses through the
relation mapping. -/
def fixRelation (tm rm : List (QName × QName)) (r : AstRelation) :
    AstRelation :=
  { r with
    attributes := r.attributes.map (fun a =>
      { a with typeName := renameQ tm a.typeName }),
    clauses := r.clauses.map (fixClause rm) }

/-- `fixNames` on a type declaration (lines 410-443): record field types,
sum branch types and union members are renamed through the type mapping. -/
def fixTypeDecl (tm : List (QName × QName)) : AstTypeDecl → AstTypeDecl
  | AstTypeDecl.primitive n numeric => AstTypeDecl.primitive n numeric
  | AstTypeDecl.union n elems => AstTypeDecl.union n (elems.map (renameQ tm))
  | AstTypeDecl.record n fields =>
    AstTypeDecl.record n (fields.map (fun f => (f.1, renameQ tm f.2)))
  | AstTypeDecl.sum n branches =>
    AstTypeDecl.sum n (branches.map (fun br => (br.1, renameQ tm br.2)))

/-- `fixNames` on a load directive (lines 390-395). -/
def fixLoad (rm : List (QName × QName)) (l : AstLoad) : AstLoad :=
  ⟨renameQ rm l.name⟩

/-- `fixNames` on a printsize directive (lines 396-401). -/
def fixPrintSize (rm : List (QName × QName)) (p : AstPrintSize) :
    AstPrintSize :=
  ⟨renameQ rm p.name⟩

/-- `fixNames` on a store directive (lines 402-407). -/
def fixStore (rm : List (QName × QName)) (s : AstStore) : AstStore :=
  ⟨renameQ rm s.name⟩

/-- The per-pass recursion depth bound
(ComponentInstantiationTransformer.cpp line 40). -/
def MAX_INSTANTIATION_DEPTH : Nat := 1000

mutual

/-- `getInstantiatedContent` (ComponentInstantiationTransformer.cpp lines
297-500): computes the content introduced by an init statement.  When the
depth bound `maxDepth` is exhausted the depth error is reported and the
empty content returned; a missing component yields the empty content
silently; otherwise the nested instantiations are expanded with the
extended binding and a decremented depth, the component content is
collected, and all accumulated names are mangled with the instance name
with every reference rewritten.  The extra `gas` argument makes the
embedding total (the source recursion over base components carries no
bound); it strictly decreases on every call and all results used by the
theorems are reached with ample gas. -/
def getInstantiatedContent (comps : List AstComponent)
    (cinit : AstComponentInit) (orphans : List AstClause)
    (report : ErrReport) (binding : TypeBinding) (maxDepth : Nat)
    (gas : Nat) : ComponentContent × List AstClause × ErrReport :=
  match gas with
  | 0 => (emptyContent, orphans, report)
  | gas + 1 =>
    if maxDepth = 0 then (emptyContent, orphans, report ++ [depthMsg])
    else
      match getComponent comps cinit.componentType.name with
      | none => (emptyContent, orphans, report)
      | some component =>
        let activeBinding := bindingExtend binding
          component.componentType.typeParams cinit.componentType.typeParams
        match instantiateNested comps component.instantiations emptyContent
            orphans report activeBinding (maxDepth - 1) gas with
        | (res, orphans2, report2) =>
          match collectContent comps component activeBinding res orphans2 []
              report2 maxDepth gas with
          | (res3, orphans3, report3) =>
            let tp := mangleTypes cinit.instanceName res3.types
            let rp := mangleRels cinit.instanceName res3.relations
            (⟨tp.2.map (fixTypeDecl tp.1),
              rp.2.map (fixRelation tp.1 rp.1),
              res3.loads.map (fixLoad rp.1),
              res3.printSizes.map (fixPrintSize rp.1),
              res3.stores.map (fixStore rp.1)⟩,
             orphans3.map (fixClause rp.1), report3)
termination_by structural gas

/-- The loop over a list of component inits that expands each one and
merges its content into the accumulator (ComponentInstantiationTransformer.cpp
lines 153-178 and 323-348). -/
def instantiateNested (comps : List AstComponent)
    (insts : List AstComponentInit) (res : ComponentContent)
    (orphans : List AstClause) (report : ErrReport) (binding : TypeBinding)
    (depth : Nat) (gas : Nat) :
    ComponentContent × List AstClause × ErrReport :=
  match gas with
  | 0 => (res, orphans, report)
  | gas + 1 =>
    match insts with
    | [] => (res, orphans, report)
    | i :: rest =>
      match getInstantiatedContent comps i orphans report binding depth gas with
      | (content, orphans2, report2) =>
        match addContentAll res content report2 with
        | (res2, report3) =>
          instantiateNested comps rest res2 orphans2 report3 binding depth gas
termination_by structural gas

/-- `collectContent` (ComponentInstantiationTransformer.cpp lines 138-295):
content of the base components first, then the local types (with binding
substitution), local relations, local I/O directives, the local clauses
(respecting the overridden set) and the orphan resolution. -/
def collectContent (comps : List AstComponent) (component : AstComponent)
    (binding : TypeBinding) (res : ComponentContent)
    (orphans : List AstClause) (overridden : List String)
    (report : ErrReport) (maxDepth : Nat) (gas : Nat) :
    ComponentContent × List AstClause × ErrReport :=
  match gas with
  | 0 => (res, orphans, report)
  | gas + 1 =>
    match collectBases comps component component.baseComponents binding res
        orphans overridden report maxDepth gas with
    | (res2, orphans2, report2) =>
      match addLocalTypes binding res2 report2 component.types with
      | (res3, report3) =>
        match addLocalRelations binding res3 report3 component.relations with
        | (res4, report4) =>
          match addLocalDirectives res4 report4 component.loads
              component.printSizes component.stores with
          | (res5, report5) =>
            match attachLocalClauses overridden res5 orphans2
                component.clauses with
            | (res6, orphans3) =>
              match resolveOrphans res6 orphans3 with
              | (res7, orphans4) => (res7, orphans4, report5)
termination_by structural gas

/-- The base-component loop of `collectContent`
(ComponentInstantiationTransformer.cpp lines 143-187): for every resolvable
base, expand its nested instantiations with the extended binding and a
decremented depth, then collect the base content recursively under the
union of the overridden sets. -/
def collectBases (comps : List AstComponent) (component : AstComponent)
    (bases : List AstComponentType) (binding : TypeBinding)
    (res : ComponentContent) (orphans : List AstClause)
    (overridden : List String) (report : ErrReport) (maxDepth : Nat)
    (gas : Nat) : ComponentContent × List AstClause × ErrReport :=
  match gas with
  | 0 => (res, orphans, report)
  | gas + 1 =>
    match bases with
    | [] => (res, orphans, report)
    | base :: rest =>
      match getComponent comps base.name with
      | none =>
        collectBases comps component rest binding res orphans overridden
          report maxDepth gas
      | some comp =>
        let activeBinding := bindingExtend binding
          comp.componentType.typeParams base.typeParams
        match instantiateNested comps comp.instantiations res orphans report
            activeBinding (maxDepth - 1) gas with
        | (res2, orphans2, report2) =>
          match collectContent comps comp activeBinding res2 orphans2
              (overridden ++ component.overridden) report2 maxDepth gas with
          | (res3, orphans3, report3) =>
            collectBases comps component rest binding res3 orphans3
              overridden report3 maxDepth gas
termination_by structural gas

end

/-- The program fields read and written by the instantiation pass
(`AstProgram`); `types` and `relations` are name-keyed maps, represented as
lists whose `insert` keeps an existing binding. -/
structure AstProgram where
  types : List AstTypeDecl
  relations : List AstRelation
  clauses : List AstClause
  components : List AstComponent
  instantiations : List AstComponentInit
  loads : List AstLoad
  printSizes : List AstPrintSize
  stores : List AstStore
deriving DecidableEq

/-- `std::map::insert` for the program type map: keeps the existing entry
on a duplicate key. -/
def mapInsertType (ts : List AstTypeDecl) (t : AstTypeDecl) :
    List AstTypeDecl :=
  if ts.any (fun e => decide (e.name = t.name)) then ts else ts ++ [t]

/-- `std::map::insert` for the program relation map: keeps the existing
entry on a duplicate key. -/
def mapInsertRel (rs : List AstRelation) (r : AstRelation) :
    List AstRelation :=
  if rs.any (fun e => decide (e.name = r.name)) then rs else rs ++ [r]

/-- Attaching a clause to the program relation of the given name:
`program.relations.find` followed by `addClause`; `none` when no relation
of that name exists. -/
def attachClauseOpt : List AstRelation → QName → AstClause →
    Option (List AstRelation)
  | [], _, _ => none
  | r :: rest, n, c =>
    if r.name = n then some ({ r with clauses := r.clauses ++ [c] } :: rest)
    else
      match attachClauseOpt rest n c with
      | some rest2 => some (r :: rest2)
      | none => none

/-- Routing one clause: attach it to its head relation when present,
otherwise append it to the unbound list (the orphan and free-clause loops
of `transform`, ComponentInstantiationTransformer.cpp lines 533-540 and
544-551). -/
def processOrphan (rels : List AstRelation) (unbound : List AstClause)
    (c : AstClause) : List AstRelation × List AstClause :=
  match attachClauseOpt rels c.head c with
  | some rels2 => (rels2, unbound)
  | none => (rels, unbound ++ [c])

/-- Installing an instantiation content into the program
(ComponentInstantiationTransformer.cpp lines 518-532). -/
def installContent (p : AstProgram) (content : ComponentContent) :
    AstProgram :=
  { p with
    types := content.types.foldl mapInsertType p.types,
    relations := content.relations.foldl mapInsertRel p.relations,
    loads := p.loads ++ content.loads,
    printSizes := p.printSizes ++ content.printSizes,
    stores := p.stores ++ content.stores }

/-- The instantiation loop of `transform`
(ComponentInstantiationTransformer.cpp lines 513-541): each init is
expanded with a fresh orphan list and the full depth budget, its content
installed, and its unresolved orphans routed against the relations known so
far. -/
def transformLoop (gas : Nat) (comps : List AstComponent) :
    AstProgram → List AstClause → ErrReport → List AstComponentInit →
    AstProgram × List AstClause × ErrReport
  | p, unbound, report, [] => (p, unbound, report)
  | p, unbound, report, cinit :: rest =>
    match getInstantiatedContent comps cinit [] report []
        MAX_INSTANTIATION_DEPTH gas with
    | (content, orphans, report2) =>
      let p2 := installContent p content
      let ru := orphans.foldl (fun acc c => processOrphan acc.1 acc.2 c)
        (p2.relations, unbound)
      transformLoop gas comps { p2 with relations := ru.1 } ru.2 report2 rest

/-- The free-clause loop of `transform`
(ComponentInstantiationTransformer.cpp lines 544-551): attach each clause
of the program clause list to its head relation, collecting the unbound
rest. -/
def attachFreeClauses (rels : List AstRelation) (cs : List AstClause) :
    List AstRelation × List AstClause :=
  cs.foldl (fun acc c => processOrphan acc.1 acc.2 c) (rels, [])

/-- `ComponentInstantiationTransformer::transform`
(ComponentInstantiationTransformer.cpp lines 503-591): expand every
instantiation, attach the program clauses, replace the clause list by the
unbound clauses and clear the component and instantiation lists. -/
def transform (p : AstProgram) (report : ErrReport) (gas : Nat) :
    AstProgram × ErrReport :=
  match transformLoop gas p.components p [] report p.instantiations with
  | (p1, unbound1, report1) =>
    match attachFreeClauses p1.relations p1.clauses with
    | (rels2, unbound2) =>
      ({ p1 with
          relations := rels2,
          clauses := unbound1 ++ unbound2,
          instantiations := [],
          components := [] }, report1)

/-- A registry with a union of the unsigned root: the result of running the
environment builder on `.type U = unsigned`. -/
def envC1 : TypeEnv :=
  updateTypeEnvironment envInit [AstTypeDecl.union ["U"] [["unsigned"]]]

/-- A registry with a cyclic union `U` (an element of itself) and a union
`V` of the number root: the result of running the environment builder on
`.type U = U` and `.type V = number`. -/
def envCyc : TypeEnv :=
  updateTypeEnvironment envInit
    [AstTypeDecl.union ["U"] [["U"]], AstTypeDecl.union ["V"] [["number"]]]

/-- The single-union program of the builder idempotence counterexample
(`.type U = number`). -/
def ts3 : List AstTypeDecl := [AstTypeDecl.union ["U"] [["number"]]]

/-- A registry with a user primitive `T` of the number root: the result of
running the environment builder on `.type T <: number` (a numeric
primitive). -/
def env5 : TypeEnv :=
  updateTypeEnvironment envInit [AstTypeDecl.primitive ["T"] true]

/-- A registry with an empty union `U`: the result of running the
environment builder on a union declaration with no resolvable elements. -/
def env10 : TypeEnv :=
  updateTypeEnvironment envInit [AstTypeDecl.union ["U"] []]

/-- A component `C1` with a single clause on the head `I2.r` and nothing
else. -/
def comp1 : AstComponent :=
  ⟨⟨"C1", []⟩, [], [], [], [], [⟨["I2", "r"], []⟩], [], [], [], []⟩

/-- A component `C2` declaring the relation `r`. -/
def comp2 : AstComponent :=
  ⟨⟨"C2", []⟩, [], [], [], [⟨["r"], [], []⟩], [], [], [], [], []⟩

/-- A program instantiating `C1` as `I1` and then `C2` as `I2`: the clause
of `C1` is an orphan of the first instantiation whose head names the
relation `I2.r` installed only by the second instantiation. -/
def ex6prog : AstProgram :=
  ⟨[], [], [], [comp1, comp2],
   [⟨["I1"], ⟨"C1", []⟩⟩, ⟨["I2"], ⟨"C2", []⟩⟩], [], [], []⟩

/-- An empty program with one free clause on the head `q` and no
relations. -/
def ex6w : AstProgram := ⟨[], [], [⟨["q"], []⟩], [], [], [], [], []⟩

theorem isSubtypeOf_def (env : TypeEnv) (a b : QName) :
    isSubtypeOf env a b =
      (if a = b then true
       else if b = qnum then isNumberType env a
       else if b = qsym then isSymbolType env a
       else
         (match envLookup env a with
           | some (TypeDef.primitive base) =>
             isSubtypeOfGo env (env.length + 1) base b
           | _ => false) ||
         (match envLookup env b with
           | some (TypeDef.union _) => isSubTypeU env a b
           | _ => false)) := rfl

theorem ior_prim (env : TypeEnv) (root a base : QName) (F : Nat)
    (h : envLookup env a = some (TypeDef.primitive base)) :
    (iorGo env root (F + 1) [] a).1 =
      (decide (a = root) || decide (base = root) ||
        (iorGo env root F [] base).1) := by
  simp [iorGo, seenLookup, h]

theorem ior_empty_union (env : TypeEnv) (root u : QName) (F : Nat)
    (h : envLookup env u = some (TypeDef.union [])) :
    (iorGo env root (F + 1) [] u).1 = false := by
  simp [iorGo, seenLookup, h]

theorem isOfRootType_def (env : TypeEnv) (t root : QName) :
    isOfRootType env t root =
      (iorGo env root (2 * env.length + 1 + 1) [] t).1 := rfl

theorem envLookup_mem_keys (env : TypeEnv) (n : QName)
    (h : (envLookup env n).isSome) : n ∈ env.map Prod.fst := by
  induction env with
  | nil => simp [envLookup] at h
  | cons p rest ih =>
    obtain ⟨m, d⟩ := p
    by_cases hp : m = n
    · subst hp
      exact List.mem_cons_self _ _
    · rw [envLookup, if_neg hp] at h
      exact List.mem_cons_of_mem _ (ih h)

theorem chainOk_nil (env : TypeEnv) (a b : QName) :
    chainOk env a [] b ↔ envLookup env a = some (TypeDef.primitive b) :=
  Iff.rfl

theorem chainOk_cons (env : TypeEnv) (a c b : QName) (cs : List QName) :
    chainOk env a (c :: cs) b ↔
      (envLookup env a = some (TypeDef.primitive c) ∧ chainOk env c cs b) :=
  Iff.rfl

theorem chain_mem (env : TypeEnv) (b : QName) (cs : List QName) (a : QName)
    (h : chainOk env a cs b) : ∀ x ∈ a :: cs, (envLookup env x).isSome := by
  induction cs generalizing a with
  | nil =>
    intro x hx
    rw [chainOk_nil] at h
    simp at hx
    subst hx
    simp [h]
  | cons c cs ih =>
    intro x hx
    rw [chainOk_cons] at h
    obtain ⟨h1, h2⟩ := h
    rcases List.mem_cons.mp hx with rfl | hx2
    · simp [h1]
    · exact ih c h2 x hx2

theorem nodup_length_le {α : Type} [DecidableEq α] (l keys : List α)
    (hnd : l.Nodup) (hsub : ∀ x ∈ l, x ∈ keys) :
    l.length ≤ keys.length := by
  calc l.length = l.toFinset.card := (List.toFinset_card_of_nodup hnd).symm
    _ ≤ keys.toFinset.card := by
        apply Finset.card_le_card
        intro x hx
        rw [List.mem_toFinset] at hx ⊢
        exact hsub x hx
    _ ≤ keys.length := keys.toFinset_card_le

theorem chain_length_le (env : TypeEnv) (a b : QName) (cs : List QName)
    (h : chainOk env a cs b) (hnd : (a :: cs).Nodup) :
    (a :: cs).length ≤ env.length := by
  have := nodup_length_le (a :: cs) (env.map Prod.fst) hnd
    (fun x hx => envLookup_mem_keys env x (chain_mem env b cs a h x hx))
  simpa using this

theorem chain_ior (env : TypeEnv) (root : QName) (cs : List QName)
    (a : QName) (F : Nat) (h : chainOk env a cs root)
    (hF : cs.length + 1 ≤ F) : (iorGo env root F [] a).1 = true := by
  induction cs generalizing a F with
  | nil =>
    rw [chainOk_nil] at h
    cases F with
    | zero => omega
    | succ G => rw [ior_prim env root a root G h]; simp
  | cons c cs ih =>
    rw [chainOk_cons] at h
    obtain ⟨h1, h2⟩ := h
    cases F with
    | zero => simp at hF
    | succ G =>
      have hrec := ih c G h2 (by simp at hF; omega)
      rw [ior_prim env root a c G h1, hrec]
      simp

theorem isSubtypeOfGo_self (env : TypeEnv) (b : QName) (G : Nat)
    (hG : 1 ≤ G) : isSubtypeOfGo env G b b = true := by
  cases G with
  | zero => omega
  | succ G2 => simp [isSubtypeOfGo]

theorem chain_subtype_go (env : TypeEnv) (b : QName) (cs : List QName)
    (a : QName) (F : Nat) (h : chainOk env a cs b)
    (hE : cs.length + 1 ≤ env.length) (hF : cs.length + 2 ≤ F) :
    isSubtypeOfGo env F a b = true := by
  induction cs generalizing a F with
  | nil =>
    rw [chainOk_nil] at h
    cases F with
    | zero => omega
    | succ G =>
      by_cases hab : a = b
      · simp [isSubtypeOfGo, hab]
      · by_cases hbn : b = qnum
        · have hior : (iorGo env qnum (2 * env.length + 1 + 1) [] a).1 = true := by
            apply chain_ior env qnum [] a _ (by rw [chainOk_nil, ← hbn]; exact h)
            omega
          have : isNumberType env a = true := by
            rw [isNumberType, isOfRootType_def]; exact hior
          simp [isSubtypeOfGo, hab, hbn, this]
        · by_cases hbs : b = qsym
          · have hior : (iorGo env qsym (2 * env.length + 1 + 1) [] a).1 = true := by
              apply chain_ior env qsym [] a _ (by rw [chainOk_nil, ← hbs]; exact h)
              omega
            have : isSymbolType env a = true := by
              rw [isSymbolType, isOfRootType_def]; exact hior
            subst hbs
            simp [isSubtypeOfGo, hab, this,
              show ¬(qsym = qnum) from by decide]
          · have hGb : isSubtypeOfGo env G b b = true :=
              isSubtypeOfGo_self env b G (by omega)
            simp [isSubtypeOfGo, hab, hbn, hbs, h, hGb]
  | cons c cs ih =>
    rw [chainOk_cons] at h
    obtain ⟨h1, h2⟩ := h
    cases F with
    | zero => omega
    | succ G =>
      by_cases hab : a = b
      · simp [isSubtypeOfGo, hab]
      · by_cases hbn : b = qnum
        · have hior : (iorGo env qnum (2 * env.length + 1 + 1) [] a).1 = true := by
            apply chain_ior env qnum (c :: cs) a _
              (by rw [chainOk_cons, ← hbn]; exact ⟨h1, h2⟩)
            simp at hE ⊢
            omega
          have : isNumberType env a = true := by
            rw [isNumberType, isOfRootType_def]; exact hior
          simp [isSubtypeOfGo, hab, hbn, this]
        · by_cases hbs : b = qsym
          · have hior : (iorGo env qsym (2 * env.length + 1 + 1) [] a).1 = true := by
              apply chain_ior env qsym (c :: cs) a _
                (by rw [chainOk_cons, ← hbs]; exact ⟨h1, h2⟩)
              simp at hE ⊢
              omega
            have : isSymbolType env a = true := by
              rw [isSymbolType, isOfRootType_def]; exact hior
            subst hbs
            simp [isSubtypeOfGo, hab, this,
              show ¬(qsym = qnum) from by decide]
          · have hrec : isSubtypeOfGo env G c b = true := by
              simp at hE hF
              exact ih c G h2 (by omega) (by omega)
            simp [isSubtypeOfGo, hab, hbn, hbs, h1, hrec]

theorem chain_subtype (env : TypeEnv) (a b : QName) (cs : List QName)
    (h : chainOk env a cs b) (hnd : (a :: cs).Nodup) :
    isSubtypeOf env a b = true := by
  have hlen := chain_length_le env a b cs h hnd
  simp at hlen
  rw [isSubtypeOf]
  exact chain_subtype_go env b cs a (env.length + 2) h (by omega) (by omega)

/-- Claim C1, amended: for every registered type `a`, `isSubtypeOf(a, b)`
returns true when `b` is the number or symbol root and `a` is of that root
(the recursive `isOfRootType` test through the primitive base chain and
union elements), and for any `b` when `a` equals `b` or `a` is a user
primitive whose base chain reaches `b`.  For the unsigned and float roots
the union clause of the original claim does not hold (see the
counterexample): `isSubtypeOf` consults the root test only for number and
symbol. -/
theorem c1_amended (env : TypeEnv) (a b : QName)
    (h : ((b = qnum ∨ b = qsym) ∧ isOfRootType env a b = true) ∨ a = b ∨
      ∃ cs, chainOk env a cs b ∧ (a :: cs).Nodup) :
    isSubtypeOf env a b = true := by
  rcases h with ⟨hb, hior⟩ | hab | ⟨cs, hchain, hnd⟩
  · by_cases hab : a = b
    · rw [isSubtypeOf_def]
      simp [hab]
    · rcases hb with rfl | rfl
      · rw [isSubtypeOf_def]
        simp [hab]
        exact hior
      · rw [isSubtypeOf_def]
        simp [hab, show ¬(qsym = qnum) from by decide]
        exact hior
  · rw [isSubtypeOf_def]
    simp [hab]
  · exact chain_subtype env a b cs hchain hnd

/-- Claim C1 is false as stated: in the registry built from
`.type U = unsigned`, the union `U` is of root unsigned by the code's own
recursive root test, yet `isSubtypeOf(U, unsigned)` returns false. -/
theorem c1_counterexample :
    envLookup envC1 ["U"] = some (TypeDef.union [["unsigned"]]) ∧
    isOfRootType envC1 ["U"] quns = true ∧
    isSubtypeOf envC1 ["U"] quns = false := by
  refine ⟨by decide, by decide, by decide⟩

/-- Claim C1 witness: the amended claim applied to the user primitive `T`
of root number through its one-step base chain. -/
theorem c1_amended_witness :
    chainOk env5 ["T"] [] qnum ∧ isSubtypeOf env5 ["T"] qnum = true :=
  ⟨by decide,
   c1_amended env5 ["T"] qnum (Or.inr (Or.inr ⟨[], by decide, by decide⟩))⟩

/-- Claim C5, amended: every type `t` registered as a user primitive with
root `R` satisfies `isSubtypeOf(t, R)`, and `getGreatestCommonSubtypes(t, R)`
is the singleton of `t` — it is `t`, not `R`, that is the member of the
greatest-common-subtype set. -/
theorem c5_amended (env : TypeEnv) (t R : QName)
    (hR : R ∈ [qnum, quns, qflt, qsym])
    (ht : envLookup env t = some (TypeDef.primitive R))
    (hRp : envLookup env R = some TypeDef.predefined) :
    isSubtypeOf env t R = true ∧
    getGreatestCommonSubtypes env t R = some (TypeSet.fin [t]) := by
  have hne : t ≠ R := by
    intro h
    rw [h, hRp] at ht
    simp at ht
  have hsub : isSubtypeOf env t R = true := by
    apply chain_subtype env t R [] _ (by simp)
    rw [chainOk_nil]
    exact ht
  refine ⟨hsub, ?_⟩
  rw [getGreatestCommonSubtypes, if_neg hne, if_pos hsub]

/-- Claim C5 is false as stated: for the user primitive `T` of root
number, `getGreatestCommonSubtypes(T, number)` is the singleton of `T`, and
number is not a member of it. -/
theorem c5_counterexample :
    envLookup env5 ["T"] = some (TypeDef.primitive qnum) ∧
    getGreatestCommonSubtypes env5 ["T"] qnum = some (TypeSet.fin [["T"]]) ∧
    ¬(qnum ∈ [(["T"] : QName)]) := by
  refine ⟨by decide, by decide, by decide⟩

/-- Claim C5 witness: the amended claim applied to the registry built
from `.type T <: number`. -/
theorem c5_amended_witness :
    isSubtypeOf env5 ["T"] qnum = true ∧
    getGreatestCommonSubtypes env5 ["T"] qnum = some (TypeSet.fin [["T"]]) :=
  c5_amended env5 ["T"] qnum (by decide) (by decide) (by decide)

/-- Root test on an empty union: always false. -/
theorem ior_empty_union_all (env : TypeEnv) (u root : QName)
    (hu : envLookup env u = some (TypeDef.union [])) :
    isOfRootType env u root = false := by
  rw [isOfRootType_def]
  exact ior_empty_union env root u _ hu

/-- Claim C10: a union with no element types is of no root —
`isOfRootType` returns false for it against every root primitive, and
`isSubtypeOf` of such a union (distinct from the root) against a root
primitive is false as well. -/
theorem c10_empty_union (env : TypeEnv) (u r : QName)
    (hu : envLookup env u = some (TypeDef.union []))
    (hr : r ∈ [qnum, quns, qflt, qsym])
    (hrp : envLookup env r = some TypeDef.predefined)
    (hne : u ≠ r) :
    isOfRootType env u r = false ∧ isSubtypeOf env u r = false := by
  refine ⟨ior_empty_union_all env u r hu, ?_⟩
  rw [isSubtypeOf_def]
  simp only [List.mem_cons, List.not_mem_nil, or_false] at hr
  rcases hr with rfl | rfl | rfl | rfl
  · simp [hne, isNumberType, ior_empty_union_all env u qnum hu]
  · rw [if_neg hne, if_neg (show ¬(quns = qnum) from by decide),
      if_neg (show ¬(quns = qsym) from by decide), hu, hrp]
    rfl
  · rw [if_neg hne, if_neg (show ¬(qflt = qnum) from by decide),
      if_neg (show ¬(qflt = qsym) from by decide), hu, hrp]
    rfl
  · simp [hne, show ¬(qsym = qnum) from by decide, isSymbolType,
      ior_empty_union_all env u qsym hu]

/-- Claim C10 witness: the claim applied to the registry holding an
empty union `U`, against the number root. -/
theorem c10_empty_union_witness :
    isOfRootType env10 ["U"] qnum = false ∧
    isSubtypeOf env10 ["U"] qnum = false :=
  c10_empty_union env10 ["U"] qnum (by decide) (by decide) (by decide)
    (by decide)

/-- Claim C2 is contradicted by the code: on the registry built from
`.type U = U` (a union containing itself) and `.type V = number`, the union
collector of `getGreatestCommonSubtypes(U, V)` never returns, whatever
recursion budget it is given — the collector is a plain `TypeVisitor`
without the visited set the spec requires of every recursive traversal, so
the call does not terminate. -/
theorem c2_gcs_diverges :
    (∀ fuel res, gcsGo envCyc ["V"] fuel res ["U"] = none) ∧
    getGreatestCommonSubtypes envCyc ["U"] ["V"] = none := by
  have hmain : ∀ fuel res, gcsGo envCyc ["V"] fuel res ["U"] = none := by
    intro fuel
    induction fuel with
    | zero => intro res; rfl
    | succ F ih =>
      intro res
      rw [gcsGo, if_neg (show ¬(isSubtypeOf envCyc ["U"] ["V"] = true) from by decide),
        show envLookup envCyc ["U"] = some (TypeDef.union [["U"]]) from by decide]
      simp only [List.foldl]
      rw [ih res]
  exact ⟨hmain, by decide⟩

/-- Claim C7: component-instantiation recursion depth is capped by the
`maxDepth` parameter whose default `MAX_INSTANTIATION_DEPTH` is 1000; a
call whose depth budget is exhausted reports the instantiation limit error
and returns the empty content with the orphan list untouched — it
contributes no types, relations, I/O directives or clauses. -/
theorem c7_depth_limit (comps : List AstComponent)
    (cinit : AstComponentInit) (orphans : List AstClause)
    (report : ErrReport) (binding : TypeBinding) (gas : Nat) :
    getInstantiatedContent comps cinit orphans report binding 0 (gas + 1) =
      (emptyContent, orphans, report ++ [depthMsg]) ∧
    MAX_INSTANTIATION_DEPTH = 1000 := by
  constructor
  · rw [getInstantiatedContent]
    simp
  · rfl

/-- Claim C8: the update operation of a supertype constraint modifies
the assignment at most once — the repeat flag is cleared by the first call,
every call with the flag clear returns false and leaves the assignment
unchanged, and in particular the call following any first call returns
false and changes nothing. -/
theorem c8_supertype_once (env : TypeEnv) (b : QName) :
    (∀ s, isSupertypeOfUpdate env b false s = (s, false, false)) ∧
    (∀ s, (isSupertypeOfUpdate env b true s).2.1 = false) ∧
    (∀ s, isSupertypeOfUpdate env b
        ((isSupertypeOfUpdate env b true s).2.1)
        ((isSupertypeOfUpdate env b true s).1) =
      ((isSupertypeOfUpdate env b true s).1, false, false)) := by
  have h1 : ∀ s, isSupertypeOfUpdate env b false s = (s, false, false) :=
    fun s => rfl
  have h2 : ∀ s, (isSupertypeOfUpdate env b true s).2.1 = false := by
    intro s
    cases s with
    | all => rfl
    | fin l =>
      rw [isSupertypeOfUpdate]
      split
      · rfl
      · rfl
  exact ⟨h1, h2, fun s => by rw [h2 s]; exact h1 _⟩

/-- Claim C9: `ComponentContent::add` for a type or relation whose
qualified name equals an already-accumulated entry reports the
redefinition error and still appends the new entry, so the accumulated
content holds both definitions under the same qualified name. -/
theorem c9_redefinition_keeps_both (c : ComponentContent) (t : AstTypeDecl)
    (r : AstRelation) (report : ErrReport)
    (ht : c.types.any (fun e => decide (e.name = t.name)) = true)
    (hr : c.relations.any (fun e => decide (e.name = r.name)) = true) :
    ComponentContent.addType c t report =
      ({ c with types := c.types ++ [t] }, report ++ [redefTypeMsg t.name]) ∧
    ComponentContent.addRelation c r report =
      ({ c with relations := c.relations ++ [r] },
        report ++ [redefRelMsg r.name]) ∧
    t ∈ (ComponentContent.addType c t report).1.types ∧
    r ∈ (ComponentContent.addRelation c r report).1.relations := by
  have h1 : ComponentContent.addType c t report =
      ({ c with types := c.types ++ [t] }, report ++ [redefTypeMsg t.name]) := by
    rw [ComponentContent.addType, if_pos ht]
  have h2 : ComponentContent.addRelation c r report =
      ({ c with relations := c.relations ++ [r] },
        report ++ [redefRelMsg r.name]) := by
    rw [ComponentContent.addRelation, if_pos hr]
  refine ⟨h1, h2, ?_, ?_⟩
  · rw [h1]; simp
  · rw [h2]; simp

/-- Claim C9 witness: a duplicate type `T` and a duplicate relation `r`
are both appended alongside the original entries, with the redefinition
errors reported. -/
theorem c9_redefinition_keeps_both_witness :
    ComponentContent.addType
        ⟨[AstTypeDecl.union ["T"] []], [⟨["r"], [], []⟩], [], [], []⟩
        (AstTypeDecl.record ["T"] []) [] =
      (⟨[AstTypeDecl.union ["T"] [], AstTypeDecl.record ["T"] []],
        [⟨["r"], [], []⟩], [], [], []⟩, [redefTypeMsg ["T"]]) ∧
    ComponentContent.addRelation
        ⟨[AstTypeDecl.union ["T"] []], [⟨["r"], [], []⟩], [], [], []⟩
        ⟨["r"], [], []⟩ [] =
      (⟨[AstTypeDecl.union ["T"] []], [⟨["r"], [], []⟩, ⟨["r"], [], []⟩],
        [], [], []⟩, [redefRelMsg ["r"]]) ∧
    AstTypeDecl.record ["T"] [] ∈
      (ComponentContent.addType
        ⟨[AstTypeDecl.union ["T"] []], [⟨["r"], [], []⟩], [], [], []⟩
        (AstTypeDecl.record ["T"] []) []).1.types ∧
    (⟨["r"], [], []⟩ : AstRelation) ∈
      (ComponentContent.addRelation
        ⟨[AstTypeDecl.union ["T"] []], [⟨["r"], [], []⟩], [], [], []⟩
        ⟨["r"], [], []⟩ []).1.relations :=
  c9_redefinition_keeps_both
    ⟨[AstTypeDecl.union ["T"] []], [⟨["r"], [], []⟩], [], [], []⟩
    (AstTypeDecl.record ["T"] []) ⟨["r"], [], []⟩ [] (by decide) (by decide)

/-- Claim C4, amended: adding a duplicate store I/O directive emits no
diagnostic, but a duplicate load directive and a duplicate printsize
directive each emit a redefinition error (the directive is appended
regardless); printsize is not the only I/O directive kind whose duplicates
are diagnosed. -/
theorem c4_amended (c : ComponentContent) (report : ErrReport) :
    (∀ s, ComponentContent.addStore c s report =
      ({ c with stores := c.stores ++ [s] }, report)) ∧
    (∀ l, c.loads.any (fun e => decide (e.name = l.name)) = true →
      ComponentContent.addLoad c l report =
        ({ c with loads := c.loads ++ [l] },
          report ++ [redefDirMsg l.name])) ∧
    (∀ p, c.printSizes.any (fun e => decide (e.name = p.name)) = true →
      ComponentContent.addPrintSize c p report =
        ({ c with printSizes := c.printSizes ++ [p] },
          report ++ [redefDirMsg p.name])) := by
  refine ⟨fun s => rfl, fun l hl => ?_, fun p hp => ?_⟩
  · rw [ComponentContent.addLoad, if_pos hl]
  · rw [ComponentContent.addPrintSize, if_pos hp]

/-- Claim C4 is false as stated: adding a duplicate load directive emits
a redefinition diagnostic, so a duplicate printsize is not the only
rejected I/O directive kind. -/
theorem c4_counterexample :
    (ComponentContent.addLoad ⟨[], [], [⟨["r"]⟩], [], []⟩ ⟨["r"]⟩ []).2 =
      [redefDirMsg ["r"]] ∧
    (ComponentContent.addLoad ⟨[], [], [⟨["r"]⟩], [], []⟩ ⟨["r"]⟩ []).2 ≠
      [] := by
  refine ⟨by decide, by decide⟩

/-- Claim C4 witness: the amended claim applied to a content carrying
one load, one printsize and one store on the relation `r`. -/
theorem c4_amended_witness :
    (ComponentContent.addStore ⟨[], [], [⟨["r"]⟩], [⟨["r"]⟩], [⟨["r"]⟩]⟩
        ⟨["r"]⟩ [] =
      (⟨[], [], [⟨["r"]⟩], [⟨["r"]⟩], [⟨["r"]⟩, ⟨["r"]⟩]⟩, [])) ∧
    (ComponentContent.addLoad ⟨[], [], [⟨["r"]⟩], [⟨["r"]⟩], [⟨["r"]⟩]⟩
        ⟨["r"]⟩ [] =
      (⟨[], [], [⟨["r"]⟩, ⟨["r"]⟩], [⟨["r"]⟩], [⟨["r"]⟩]⟩,
        [redefDirMsg ["r"]])) ∧
    (ComponentContent.addPrintSize ⟨[], [], [⟨["r"]⟩], [⟨["r"]⟩], [⟨["r"]⟩]⟩
        ⟨["r"]⟩ [] =
      (⟨[], [], [⟨["r"]⟩], [⟨["r"]⟩, ⟨["r"]⟩], [⟨["r"]⟩]⟩,
        [redefDirMsg ["r"]])) :=
  And.intro ((c4_amended ⟨[], [], [⟨["r"]⟩], [⟨["r"]⟩], [⟨["r"]⟩]⟩ []).1 ⟨["r"]⟩)
    (And.intro
      ((c4_amended ⟨[], [], [⟨["r"]⟩], [⟨["r"]⟩], [⟨["r"]⟩]⟩ []).2.1 ⟨["r"]⟩
        (by decide))
      ((c4_amended ⟨[], [], [⟨["r"]⟩], [⟨["r"]⟩], [⟨["r"]⟩]⟩ []).2.2 ⟨["r"]⟩
        (by decide)))

theorem updateEnvEntry_keysKinds (env : TypeEnv) (n : QName)
    (f : TypeDef → TypeDef) (hf : ∀ d, kindOf (f d) = kindOf d) :
    keysKinds (updateEnvEntry env n f) = keysKinds env := by
  induction env with
  | nil => rfl
  | cons p rest ih =>
    obtain ⟨m, d⟩ := p
    by_cases hm : m = n
    · simp [updateEnvEntry, hm, keysKinds, hf]
    · simp only [updateEnvEntry, if_neg hm]
      simp only [keysKinds, List.map] at ih ⊢
      rw [ih]

theorem linkStep_keysKinds (env : TypeEnv) (t : AstTypeDecl) :
    keysKinds (typeEnvLinkStep env t) = keysKinds env := by
  cases t with
  | primitive n numeric => rfl
  | union n elems =>
    apply updateEnvEntry_keysKinds
    intro d
    cases d <;> rfl
  | record n fields =>
    apply updateEnvEntry_keysKinds
    intro d
    cases d <;> rfl
  | sum n branches =>
    apply updateEnvEntry_keysKinds
    intro d
    cases d <;> rfl

theorem linkFold_keysKinds (ts : List AstTypeDecl) (env : TypeEnv) :
    keysKinds (ts.foldl typeEnvLinkStep env) = keysKinds env := by
  induction ts generalizing env with
  | nil => rfl
  | cons t ts ih => rw [List.foldl_cons, ih, linkStep_keysKinds]

theorem lookup_isSome_keysKinds (env : TypeEnv) (n : QName) :
    (envLookup env n).isSome =
      (keysKinds env).any (fun p => decide (p.1 = n)) := by
  induction env with
  | nil => rfl
  | cons p rest ih =>
    obtain ⟨m, d⟩ := p
    by_cases hm : m = n
    · simp [envLookup, hm, keysKinds]
    · simp only [envLookup, if_neg hm, keysKinds, List.map, List.any_cons]
      simp only [keysKinds] at ih
      rw [ih]
      simp [hm]

theorem linkFold_lookup_isSome (ts : List AstTypeDecl) (env : TypeEnv)
    (n : QName) :
    (envLookup (ts.foldl typeEnvLinkStep env) n).isSome =
      (envLookup env n).isSome := by
  rw [lookup_isSome_keysKinds, lookup_isSome_keysKinds, linkFold_keysKinds]

theorem symbolFold_skip (ts : List AstTypeDecl) (env : TypeEnv)
    (h : ∀ t ∈ ts, (envLookup env t.name).isSome = true) :
    ts.foldl typeEnvSymbolStep env = env := by
  induction ts with
  | nil => rfl
  | cons t ts ih =>
    rw [List.foldl_cons,
      show typeEnvSymbolStep env t = env from by
        rw [typeEnvSymbolStep.eq_def, if_pos (h t (List.mem_cons_self t ts))]]
    exact ih (fun u hu => h u (List.mem_cons_of_mem t hu))

theorem lookup_append_self (env : TypeEnv) (n : QName) (d : TypeDef) :
    (envLookup (env ++ [(n, d)]) n).isSome = true := by
  induction env with
  | nil => simp [envLookup]
  | cons p rest ih =>
    obtain ⟨m, e⟩ := p
    by_cases hm : m = n
    · simp [envLookup, hm]
    · simpa [envLookup, hm] using ih

theorem lookup_append_isSome (env l : TypeEnv) (n : QName)
    (h : (envLookup env n).isSome = true) :
    (envLookup (env ++ l) n).isSome = true := by
  induction env with
  | nil => simp [envLookup] at h
  | cons p rest ih =>
    obtain ⟨m, e⟩ := p
    by_cases hm : m = n
    · simp [envLookup, hm]
    · rw [envLookup, if_neg hm] at h
      simpa [envLookup, hm] using ih h

theorem createTypeIfAbsent_self (env : TypeEnv) (n : QName) (d : TypeDef) :
    (envLookup (createTypeIfAbsent env n d) n).isSome = true := by
  rw [createTypeIfAbsent]
  cases h : envLookup env n with
  | some e => simp [h]
  | none => exact lookup_append_self env n d

theorem createTypeIfAbsent_mono (env : TypeEnv) (n m : QName) (d : TypeDef)
    (h : (envLookup env m).isSome = true) :
    (envLookup (createTypeIfAbsent env n d) m).isSome = true := by
  rw [createTypeIfAbsent]
  cases hl : envLookup env n with
  | some e => exact h
  | none => exact lookup_append_isSome env [(n, d)] m h

theorem symbolStep_self (env : TypeEnv) (t : AstTypeDecl) :
    (envLookup (typeEnvSymbolStep env t) t.name).isSome = true := by
  rw [typeEnvSymbolStep.eq_def]
  by_cases h : (envLookup env t.name).isSome = true
  · simp [h]
  · rw [if_neg (by simpa using h)]
    cases t with
    | primitive n numeric =>
      by_cases hn : numeric
      · simp only [hn, if_pos]
        exact createTypeIfAbsent_self env n _
      · simp only [hn, if_neg, ite_false]
        exact createTypeIfAbsent_self env n _
    | union n elems => exact createTypeIfAbsent_self env n _
    | record n fields => exact createTypeIfAbsent_self env n _
    | sum n branches => exact createTypeIfAbsent_self env n _

theorem symbolStep_mono (env : TypeEnv) (t : AstTypeDecl) (m : QName)
    (h : (envLookup env m).isSome = true) :
    (envLookup (typeEnvSymbolStep env t) m).isSome = true := by
  rw [typeEnvSymbolStep.eq_def]
  by_cases hs : (envLookup env t.name).isSome = true
  · simp [hs, h]
  · rw [if_neg (by simpa using hs)]
    cases t with
    | primitive n numeric =>
      by_cases hn : numeric
      · simp only [hn, if_pos]
        exact createTypeIfAbsent_mono env n m _ h
      · simp only [hn, if_neg, ite_false]
        exact createTypeIfAbsent_mono env n m _ h
    | union n elems => exact createTypeIfAbsent_mono env n m _ h
    | record n fields => exact createTypeIfAbsent_mono env n m _ h
    | sum n branches => exact createTypeIfAbsent_mono env n m _ h

theorem symbolFold_mono (ts : List AstTypeDecl) (env : TypeEnv) (m : QName)
    (h : (envLookup env m).isSome = true) :
    (envLookup (ts.foldl typeEnvSymbolStep env) m).isSome = true := by
  induction ts generalizing env with
  | nil => exact h
  | cons t ts ih => exact ih _ (symbolStep_mono env t m h)

theorem symbolFold_mem (ts : List AstTypeDecl) (env : TypeEnv) :
    ∀ t ∈ ts, (envLookup (ts.foldl typeEnvSymbolStep env) t.name).isSome = true := by
  induction ts generalizing env with
  | nil => intro t ht; simp at ht
  | cons u ts ih =>
    intro t ht
    rcases List.mem_cons.mp ht with rfl | ht2
    · exact symbolFold_mono ts _ t.name (symbolStep_self env t)
    · exact ih _ t ht2

/-- Claim C3, amended: running `updateTypeEnvironment` a second time on
the same AST leaves the registry's names and kinds unchanged (the symbol
pass skips every existing name and the link pass never changes a name or a
kind), but not the whole registry: the second link pass appends every
union's resolved element list, record's field list and sum's branch list
again (see the counterexample). -/
theorem c3_amended (ts : List AstTypeDecl) :
    keysKinds (updateTypeEnvironment (updateTypeEnvironment envInit ts) ts) =
      keysKinds (updateTypeEnvironment envInit ts) := by
  have hmem : ∀ t ∈ ts,
      (envLookup (updateTypeEnvironment envInit ts) t.name).isSome = true := by
    intro t ht
    rw [updateTypeEnvironment, linkFold_lookup_isSome]
    exact symbolFold_mem ts envInit t ht
  rw [show updateTypeEnvironment (updateTypeEnvironment envInit ts) ts =
      ts.foldl typeEnvLinkStep (updateTypeEnvironment envInit ts) from by
    rw [updateTypeEnvironment, symbolFold_skip ts _ hmem]]
  exact linkFold_keysKinds ts _

/-- Claim C3 is false as stated: after building `.type U = number` once,
a second run of `updateTypeEnvironment` on the same AST leaves `U` with the
element list `[number, number]` — the registries are not structurally
equal. -/
theorem c3_counterexample :
    envLookup (updateTypeEnvironment envInit ts3) ["U"] =
      some (TypeDef.union [["number"]]) ∧
    envLookup (updateTypeEnvironment (updateTypeEnvironment envInit ts3) ts3)
        ["U"] = some (TypeDef.union [["number"], ["number"]]) ∧
    updateTypeEnvironment (updateTypeEnvironment envInit ts3) ts3 ≠
      updateTypeEnvironment envInit ts3 := by
  refine ⟨by decide, by decide, by decide⟩

theorem attachClauseOpt_keys (rels : List AstRelation) (n : QName)
    (c : AstClause) (rels2 : List AstRelation)
    (h : attachClauseOpt rels n c = some rels2) :
    rels2.map AstRelation.name = rels.map AstRelation.name := by
  induction rels generalizing rels2 with
  | nil => simp [attachClauseOpt] at h
  | cons r rest ih =>
    rw [attachClauseOpt] at h
    by_cases hr : r.name = n
    · rw [if_pos hr] at h
      cases h
      simp
    · rw [if_neg hr] at h
      cases h2 : attachClauseOpt rest n c with
      | none => rw [h2] at h; cases h
      | some rest2 =>
        rw [h2] at h
        cases h
        simp [ih rest2 h2]

theorem attachClauseOpt_isSome (rels : List AstRelation) (n : QName)
    (c : AstClause) :
    (attachClauseOpt rels n c).isSome = hasRel rels n := by
  induction rels with
  | nil => rfl
  | cons r rest ih =>
    rw [attachClauseOpt]
    by_cases hr : r.name = n
    · simp [hr, hasRel]
    · rw [if_neg hr]
      cases h2 : attachClauseOpt rest n c with
      | none =>
        rw [h2] at ih
        simp [hasRel, hr] at ih ⊢
        exact ih
      | some rest2 =>
        rw [h2] at ih
        simp [hasRel, hr] at ih ⊢
        exact ih

theorem hasRel_keys (rels rels2 : List AstRelation) (n : QName)
    (h : rels.map AstRelation.name = rels2.map AstRelation.name) :
    hasRel rels n = hasRel rels2 n := by
  have hm : ∀ l : List AstRelation,
      hasRel l n = (l.map AstRelation.name).any (fun m => decide (m = n)) := by
    intro l
    induction l with
    | nil => rfl
    | cons r rest ih => simp [hasRel, List.any_cons] at ih ⊢; rw [ih]
  rw [hm, hm, h]

theorem afc_fold_inv (cs : List AstClause) (rels : List AstRelation)
    (ub : List AstClause) (h : ∀ c ∈ ub, hasRel rels c.head = false) :
    (cs.foldl (fun acc c => processOrphan acc.1 acc.2 c)
        (rels, ub)).1.map AstRelation.name = rels.map AstRelation.name ∧
    ∀ c ∈ (cs.foldl (fun acc c => processOrphan acc.1 acc.2 c) (rels, ub)).2,
      hasRel (cs.foldl (fun acc c => processOrphan acc.1 acc.2 c)
        (rels, ub)).1 c.head = false := by
  induction cs generalizing rels ub with
  | nil => exact ⟨rfl, h⟩
  | cons c cs ih =>
    rw [List.foldl_cons]
    rw [processOrphan]
    cases h2 : attachClauseOpt rels c.head c with
    | some rels2 =>
      have hkeys := attachClauseOpt_keys rels c.head c rels2 h2
      have hpre : ∀ d ∈ ub, hasRel rels2 d.head = false := by
        intro d hd
        rw [hasRel_keys rels2 rels d.head hkeys]
        exact h d hd
      obtain ⟨k1, k2⟩ := ih rels2 ub hpre
      exact ⟨k1.trans hkeys, k2⟩
    | none =>
      have hnew : hasRel rels c.head = false := by
        have := attachClauseOpt_isSome rels c.head c
        rw [h2] at this
        exact this.symm
      apply ih rels (ub ++ [c])
      intro d hd
      rcases List.mem_append.mp hd with hd1 | hd2
      · exact h d hd1
      · rw [List.mem_singleton.mp hd2]
        exact hnew

theorem attach_preserves_mem (rels : List AstRelation) (n : QName)
    (c : AstClause) (rels2 : List AstRelation)
    (h : attachClauseOpt rels n c = some rels2) (m : QName) (d : AstClause) :
    (∃ r ∈ rels, r.name = m ∧ d ∈ r.clauses) →
      ∃ r ∈ rels2, r.name = m ∧ d ∈ r.clauses := by
  induction rels generalizing rels2 with
  | nil => simp [attachClauseOpt] at h
  | cons r rest ih =>
    intro hex
    rw [attachClauseOpt] at h
    by_cases hr : r.name = n
    · rw [if_pos hr] at h
      cases h
      obtain ⟨r0, hr0mem, hr0⟩ := hex
      rcases List.mem_cons.mp hr0mem with rfl | hmem
      · exact ⟨{ r0 with clauses := r0.clauses ++ [c] },
          List.mem_cons_self _ _, hr0.1, List.mem_append_left _ hr0.2⟩
      · exact ⟨r0, List.mem_cons_of_mem _ hmem, hr0⟩
    · rw [if_neg hr] at h
      cases h2 : attachClauseOpt rest n c with
      | none => rw [h2] at h; cases h
      | some rest2 =>
        rw [h2] at h
        cases h
        obtain ⟨r0, hr0mem, hr0⟩ := hex
        rcases List.mem_cons.mp hr0mem with rfl | hmem
        · exact ⟨r0, List.mem_cons_self _ _, hr0⟩
        · obtain ⟨r1, hr1mem, hr1⟩ := ih rest2 h2 ⟨r0, hmem, hr0⟩
          exact ⟨r1, List.mem_cons_of_mem _ hr1mem, hr1⟩

theorem attach_new_mem (rels : List AstRelation) (n : QName) (c : AstClause)
    (rels2 : List AstRelation) (h : attachClauseOpt rels n c = some rels2) :
    ∃ r ∈ rels2, r.name = n ∧ c ∈ r.clauses := by
  induction rels generalizing rels2 with
  | nil => simp [attachClauseOpt] at h
  | cons r rest ih =>
    rw [attachClauseOpt] at h
    by_cases hr : r.name = n
    · rw [if_pos hr] at h
      cases h
      exact ⟨{ r with clauses := r.clauses ++ [c] }, List.mem_cons_self _ _,
        hr, List.mem_append_right _ (by simp)⟩
    · rw [if_neg hr] at h
      cases h2 : attachClauseOpt rest n c with
      | none => rw [h2] at h; cases h
      | some rest2 =>
        rw [h2] at h
        cases h
        obtain ⟨r1, hm, hp⟩ := ih rest2 h2
        exact ⟨r1, List.mem_cons_of_mem _ hm, hp⟩

theorem afc_fold_attached_mono (cs : List AstClause) :
    ∀ (rels : List AstRelation) (ub : List AstClause) (m : QName)
      (d : AstClause),
      (∃ r ∈ rels, r.name = m ∧ d ∈ r.clauses) →
      ∃ r ∈ (cs.foldl (fun acc c => processOrphan acc.1 acc.2 c)
        (rels, ub)).1, r.name = m ∧ d ∈ r.clauses := by
  induction cs with
  | nil => intro rels ub m d hex; exact hex
  | cons c cs ih =>
    intro rels ub m d hex
    rw [List.foldl_cons, processOrphan]
    cases h2 : attachClauseOpt rels c.head c with
    | some rels2 =>
      exact ih rels2 ub m d (attach_preserves_mem rels c.head c rels2 h2 m d hex)
    | none => exact ih rels (ub ++ [c]) m d hex

theorem afc_fold_ub_mono (cs : List AstClause) :
    ∀ (rels : List AstRelation) (ub : List AstClause) (d : AstClause),
      d ∈ ub →
      d ∈ (cs.foldl (fun acc c => processOrphan acc.1 acc.2 c) (rels, ub)).2 := by
  induction cs with
  | nil => intro rels ub d hd; exact hd
  | cons c cs ih =>
    intro rels ub d hd
    rw [List.foldl_cons, processOrphan]
    cases h2 : attachClauseOpt rels c.head c with
    | some rels2 => exact ih rels2 ub d hd
    | none => exact ih rels (ub ++ [c]) d (List.mem_append_left _ hd)

theorem afc_fold_routed (cs : List AstClause) :
    ∀ (rels : List AstRelation) (ub : List AstClause) (d : AstClause),
      d ∈ cs →
      d ∈ (cs.foldl (fun acc c => processOrphan acc.1 acc.2 c) (rels, ub)).2 ∨
      ∃ r ∈ (cs.foldl (fun acc c => processOrphan acc.1 acc.2 c)
        (rels, ub)).1, r.name = d.head ∧ d ∈ r.clauses := by
  induction cs with
  | nil => intro rels ub d hd; simp at hd
  | cons c cs ih =>
    intro rels ub d hd
    rw [List.foldl_cons, processOrphan]
    rcases List.mem_cons.mp hd with rfl | hd2
    · cases h2 : attachClauseOpt rels d.head d with
      | some rels2 =>
        right
        exact afc_fold_attached_mono cs rels2 ub d.head d
          (attach_new_mem rels d.head d rels2 h2)
      | none =>
        left
        exact afc_fold_ub_mono cs rels (ub ++ [d]) d
          (List.mem_append_right _ (by simp))
    · cases h2 : attachClauseOpt rels c.head c with
      | some rels2 => exact ih rels2 ub d hd2
      | none => exact ih rels (ub ++ [c]) d hd2

/-- Claim C6, amended: after `transform` the program's component and
instantiation lists are empty; every clause the free-clause loop leaves
unbound has a head matching no relation of the final relation map, and
every other clause of the program's free list has been attached to the
clause list of the relation matching its head; but an orphan clause of an
instantiation was only checked against the relations installed up to that
point and may match a relation installed by a later instantiation (see the
counterexample), so not every clause remaining in `program.clauses` has an
unmatched head. -/
theorem c6_amended (p : AstProgram) (report : ErrReport) (gas : Nat)
    (rels : List AstRelation) (cs : List AstClause) (c : AstClause)
    (hc : c ∈ (attachFreeClauses rels cs).2) :
    (transform p report gas).1.components = [] ∧
    (transform p report gas).1.instantiations = [] ∧
    hasRel (attachFreeClauses rels cs).1 c.head = false ∧
    ∀ d ∈ cs, d ∈ (attachFreeClauses rels cs).2 ∨
      ∃ r ∈ (attachFreeClauses rels cs).1, r.name = d.head ∧ d ∈ r.clauses := by
  have h12 : (transform p report gas).1.components = [] ∧
      (transform p report gas).1.instantiations = [] := by
    rw [transform.eq_def]
    rcases transformLoop gas p.components p [] report p.instantiations with
      ⟨p1, u1, r1⟩
    rcases attachFreeClauses p1.relations p1.clauses with ⟨rels2, ub2⟩
    exact ⟨rfl, rfl⟩
  have hinv := afc_fold_inv cs rels [] (by intro d hd; simp at hd)
  refine ⟨h12.1, h12.2, hinv.2 c hc, ?_⟩
  intro d hd
  exact afc_fold_routed cs rels [] d hd

/-- Claim C6 is false as stated: instantiating a component whose clause
heads `I2.r` before the instantiation `I2` that creates the relation
`I2.r` leaves that clause in `program.clauses` even though its head matches
a relation of `program.relations` after the pass. -/
theorem c6_counterexample :
    (⟨["I2", "r"], []⟩ : AstClause) ∈ (transform ex6prog [] 50).1.clauses ∧
    hasRel (transform ex6prog [] 50).1.relations ["I2", "r"] = true := by
  refine ⟨by decide, by decide⟩

/-- Claim C6 witness: the amended claim applied to a program with one free
clause on the declared relation `p` (which is attached) and one on the
undeclared head `q` (which stays unbound with an unmatched head). -/
theorem c6_amended_witness :
    (transform ex6w [] 5).1.components = [] ∧
    (transform ex6w [] 5).1.instantiations = [] ∧
    hasRel (attachFreeClauses [⟨["p"], [], []⟩]
        [⟨["p"], []⟩, ⟨["q"], []⟩]).1 (AstClause.mk ["q"] []).head = false ∧
    ∀ d ∈ [(⟨["p"], []⟩ : AstClause), ⟨["q"], []⟩],
      d ∈ (attachFreeClauses [⟨["p"], [], []⟩]
        [⟨["p"], []⟩, ⟨["q"], []⟩]).2 ∨
      ∃ r ∈ (attachFreeClauses [⟨["p"], [], []⟩]
        [⟨["p"], []⟩, ⟨["q"], []⟩]).1, r.name = d.head ∧ d ∈ r.clauses :=
  c6_amended ex6w [] 5 [⟨["p"], [], []⟩] [⟨["p"], []⟩, ⟨["q"], []⟩]
    ⟨["q"], []⟩ (by decide)
